import Mathlib

/-!
Verification of the php-syntax-analyzer corpus pipeline.

The definitions below are a shallow embedding of the Rust sources:
`src/results.rs` (vendors, impact levels, match records, aggregation),
`src/analyzer.rs` (the per-node matching walkers), `src/files.rs`
(recursive file discovery), and `src/downloader.rs` (registry paging and
per-package acquisition).  External effects (the registry, the network,
the filesystem) are passed in explicitly as data.
-/

/-- Vendors, from `Vendor` in `src/results.rs`. -/
inductive Vendor where
  | symfony
  | laravel
  | doctrine
  | phpunit
  | twig
  | illuminate
  | other
deriving DecidableEq, Repr

/-- `Vendor::is_well_known` from `src/results.rs`: every vendor except `Other`. -/
def Vendor.is_well_known : Vendor → Bool
  | Vendor.other => false
  | _ => true

/-- `KeywordMatch` from `src/results.rs`. -/
structure KeywordMatch where
  keyword : String
  vendor : Vendor
  is_hard : Bool
deriving DecidableEq, Repr

/-- `LabelMatch` from `src/results.rs`. -/
structure LabelMatch where
  label : String
  vendor : Vendor
deriving DecidableEq, Repr

/-- `ImpactLevel` from `src/results.rs`, in the declared (derived `Ord`) order. -/
inductive ImpactLevel where
  | none
  | low
  | medium
  | high
  | critical
deriving DecidableEq, Repr

/-- The index of an `ImpactLevel` in its declaration order; the derived Rust
`Ord` compares these indices. -/
def ImpactLevel.toNat : ImpactLevel → Nat
  | ImpactLevel.none => 0
  | ImpactLevel.low => 1
  | ImpactLevel.medium => 2
  | ImpactLevel.high => 3
  | ImpactLevel.critical => 4

instance : LE ImpactLevel := ⟨fun a b => a.toNat ≤ b.toNat⟩

instance : DecidableRel (fun a b : ImpactLevel => a ≤ b) :=
  fun a b => inferInstanceAs (Decidable (a.toNat ≤ b.toNat))

/-- `ImpactLevel::calculate` from `src/results.rs`: the Rust range match
`0`, `1..=25`, `26..=100`, `101..=500`, `_` rendered as nested conditionals. -/
def ImpactLevel.calculate (total : Nat) : ImpactLevel :=
  if total = 0 then ImpactLevel.none
  else if total ≤ 25 then ImpactLevel.low
  else if total ≤ 100 then ImpactLevel.medium
  else if total ≤ 500 then ImpactLevel.high
  else ImpactLevel.critical

/-- `KeywordResult` from `src/results.rs`; the `HashSet<Vendor>` is a `Finset`. -/
structure KeywordResult where
  soft_count : Nat
  hard_count : Nat
  well_known_vendors : Finset Vendor
deriving DecidableEq

/-- `KeywordResult::new`. -/
def KeywordResult.new : KeywordResult :=
  { soft_count := 0, hard_count := 0, well_known_vendors := ∅ }

/-- `KeywordResult::total_count`. -/
def KeywordResult.total_count (r : KeywordResult) : Nat :=
  r.soft_count + r.hard_count

/-- `KeywordResult::soft_impact`. -/
def KeywordResult.soft_impact (r : KeywordResult) : ImpactLevel :=
  ImpactLevel.calculate r.soft_count

/-- `KeywordResult::hard_impact`. -/
def KeywordResult.hard_impact (r : KeywordResult) : ImpactLevel :=
  ImpactLevel.calculate r.total_count

/-- `KeywordResult::add_match` from `src/results.rs`. -/
def KeywordResult.add_match (r : KeywordResult) (m : KeywordMatch) : KeywordResult :=
  let r :=
    if m.is_hard then { r with hard_count := r.hard_count + 1 }
    else { r with soft_count := r.soft_count + 1 }
  if m.vendor.is_well_known then
    { r with well_known_vendors := insert m.vendor r.well_known_vendors }
  else r

/-- `LabelResult` from `src/results.rs`. -/
structure LabelResult where
  count : Nat
  well_known_vendors : Finset Vendor
deriving DecidableEq

/-- `LabelResult::new`. -/
def LabelResult.new : LabelResult :=
  { count := 0, well_known_vendors := ∅ }

/-- `LabelResult::add_match` from `src/results.rs`. -/
def LabelResult.add_match (r : LabelResult) (m : LabelMatch) : LabelResult :=
  let r := { r with count := r.count + 1 }
  if m.vendor.is_well_known then
    { r with well_known_vendors := insert m.vendor r.well_known_vendors }
  else r

/-- `AnalysisReport` from `src/results.rs`; each `HashMap` is a partial map. -/
structure AnalysisReport where
  keyword_results : String → Option KeywordResult
  label_results : String → Option LabelResult
  total_files : Nat

/-- `AnalysisReport::new`. -/
def AnalysisReport.new (total_files : Nat) : AnalysisReport :=
  { keyword_results := fun _ => Option.none
    label_results := fun _ => Option.none
    total_files := total_files }

/-- One iteration of the loop in `AnalysisReport::add_keyword_matches`:
`entry(m.keyword).or_insert_with(KeywordResult::new).add_match(&m)`. -/
def step_keyword (map : String → Option KeywordResult) (m : KeywordMatch) :
    String → Option KeywordResult :=
  fun k =>
    if k = m.keyword then
      Option.some (KeywordResult.add_match ((map m.keyword).getD KeywordResult.new) m)
    else map k

/-- One iteration of the loop in `AnalysisReport::add_label_matches`. -/
def step_label (map : String → Option LabelResult) (m : LabelMatch) :
    String → Option LabelResult :=
  fun k =>
    if k = m.label then
      Option.some (LabelResult.add_match ((map m.label).getD LabelResult.new) m)
    else map k

/-- `AnalysisReport::add_keyword_matches` from `src/results.rs`. -/
def AnalysisReport.add_keyword_matches (r : AnalysisReport) (ms : List KeywordMatch) :
    AnalysisReport :=
  { r with keyword_results := ms.foldl step_keyword r.keyword_results }

/-- `AnalysisReport::add_label_matches` from `src/results.rs`. -/
def AnalysisReport.add_label_matches (r : AnalysisReport) (ms : List LabelMatch) :
    AnalysisReport :=
  { r with label_results := ms.foldl step_label r.label_results }

/-- One iteration of the loop in `AnalysisReport::ensure_all_keywords`:
`entry(keyword).or_insert_with(KeywordResult::new)`. -/
def ensure_keyword (map : String → Option KeywordResult) (k : String) :
    String → Option KeywordResult :=
  fun x => if x = k then Option.some ((map k).getD KeywordResult.new) else map x

/-- `AnalysisReport::ensure_all_keywords` from `src/results.rs`. -/
def AnalysisReport.ensure_all_keywords (r : AnalysisReport) (keywords : List String) :
    AnalysisReport :=
  { r with keyword_results := keywords.foldl ensure_keyword r.keyword_results }

/-- The aggregation tail of `analyze_directory` in `src/analyzer.rs`: build a fresh
report, fold in the collected keyword and label matches, then force-insert the
requested keywords. -/
def analyze_aggregate (total_files : Nat) (keywords : List String)
    (kms : List KeywordMatch) (lms : List LabelMatch) : AnalysisReport :=
  (((AnalysisReport.new total_files).add_keyword_matches kms).add_label_matches lms).ensure_all_keywords
    keywords

/-- Pointwise merge of two keyword results (counts add, vendor sets unite);
the merged value of folding a partition of a match list. -/
def KeywordResult.merge (a b : KeywordResult) : KeywordResult :=
  { soft_count := a.soft_count + b.soft_count
    hard_count := a.hard_count + b.hard_count
    well_known_vendors := a.well_known_vendors ∪ b.well_known_vendors }

/-- Pointwise merge of two label results. -/
def LabelResult.merge (a b : LabelResult) : LabelResult :=
  { count := a.count + b.count
    well_known_vendors := a.well_known_vendors ∪ b.well_known_vendors }

/-- Merge of two keyword maps, keyed union with `KeywordResult.merge` on overlap. -/
def merge_keyword_maps (f g : String → Option KeywordResult) :
    String → Option KeywordResult :=
  fun k =>
    match f k, g k with
    | Option.none, o => o
    | o, Option.none => o
    | Option.some a, Option.some b => Option.some (a.merge b)

/-- Merge of two label maps. -/
def merge_label_maps (f g : String → Option LabelResult) :
    String → Option LabelResult :=
  fun k =>
    match f k, g k with
    | Option.none, o => o
    | o, Option.none => o
    | Option.some a, Option.some b => Option.some (a.merge b)

/-- The empty keyword map (a fresh report's `keyword_results`). -/
def empty_keyword_map : String → Option KeywordResult := fun _ => Option.none

/-- The empty label map. -/
def empty_label_map : String → Option LabelResult := fun _ => Option.none

/-- Folding a list of keyword matches into the empty map. -/
def build_keyword_map (ms : List KeywordMatch) : String → Option KeywordResult :=
  ms.foldl step_keyword empty_keyword_map

/-- Folding a list of label matches into the empty map. -/
def build_label_map (ms : List LabelMatch) : String → Option LabelResult :=
  ms.foldl step_label empty_label_map

/-- ASCII lowercasing of one character, as Rust `u8::to_ascii_lowercase`. -/
def asciiLower (c : Char) : Char :=
  if 'A' ≤ c ∧ c ≤ 'Z' then Char.ofNat (c.toNat + 32) else c

/-- Rust `str::eq_ignore_ascii_case`: equality after ASCII lowercasing. -/
def eq_ignore_ascii_case (a b : String) : Bool :=
  a.data.map asciiLower == b.data.map asciiLower

/-- Splitting a character list at every occurrence of a separator character;
always yields at least one (possibly empty) segment, as Rust `str::split`. -/
def splitOnChar (c : Char) : List Char → List (List Char)
  | [] => [[]]
  | x :: xs =>
    match splitOnChar c xs with
    | [] => [[]]
    | seg :: rest => if x = c then [] :: seg :: rest else (x :: seg) :: rest

/-- `resolved_name.split('\\').next_back().unwrap_or_default()` from
`src/analyzer.rs`: the last backslash-separated segment of a name. -/
def lastSegment (s : String) : String :=
  String.mk ((splitOnChar (Char.ofNat 92) s.data).getLastD [])

/-- The callee expression of a call node: either a plain identifier (carrying
the name the external resolver assigned to it) or anything else. -/
inductive CalleeExpr where
  | identifier (resolved : String)
  | otherExpr
deriving DecidableEq, Repr

/-- `walk_in_label` from `src/analyzer.rs`: for each requested label term that
equals the goto label's name case-insensitively, record a match carrying the
label's source spelling (no break). -/
def walk_in_label (labels : List String) (vendor : Vendor) (name : String) :
    List LabelMatch :=
  labels.filterMap fun label_v =>
    if eq_ignore_ascii_case name label_v then Option.some { label := name, vendor := vendor }
    else Option.none

/-- `walk_in_named_argument` from `src/analyzer.rs`: identical matching over a
named argument's name. -/
def walk_in_named_argument (labels : List String) (vendor : Vendor) (name : String) :
    List LabelMatch :=
  labels.filterMap fun label_v =>
    if eq_ignore_ascii_case name label_v then Option.some { label := name, vendor := vendor }
    else Option.none

/-- `walk_in_function_call` from `src/analyzer.rs`: when the callee is a plain
identifier, compare the last segment of its resolved name against each keyword
case-insensitively, emitting a soft match for the first hit (the loop breaks). -/
def walk_in_function_call (keywords : List String) (vendor : Vendor)
    (function : CalleeExpr) : List KeywordMatch :=
  match function with
  | CalleeExpr.otherExpr => []
  | CalleeExpr.identifier resolved =>
    match keywords.find? (fun keyword => eq_ignore_ascii_case (lastSegment resolved) keyword) with
    | Option.some keyword => [{ keyword := keyword, vendor := vendor, is_hard := false }]
    | Option.none => []

/-- `walk_in_function` from `src/analyzer.rs`: compare a function declaration's
own name against each keyword case-insensitively, emitting a soft match for the
first hit. -/
def walk_in_function (keywords : List String) (vendor : Vendor) (name : String) :
    List KeywordMatch :=
  match keywords.find? (fun keyword => eq_ignore_ascii_case name keyword) with
  | Option.some keyword => [{ keyword := keyword, vendor := vendor, is_hard := false }]
  | Option.none => []

/-- `walk_in_local_identifier` from `src/analyzer.rs`: when the analyzer's
`hard` flag is set (it always is in `Analyzer::run`), compare the bare local
identifier against each keyword case-insensitively, emitting a hard match for
the first hit. -/
def walk_in_local_identifier (hard : Bool) (keywords : List String) (vendor : Vendor)
    (value : String) : List KeywordMatch :=
  if !hard then []
  else
    match keywords.find? (fun keyword => eq_ignore_ascii_case value keyword) with
    | Option.some keyword => [{ keyword := keyword, vendor := vendor, is_hard := true }]
    | Option.none => []

/-- A node of the on-disk tree under the corpus root, for `src/files.rs`. -/
inductive FsNode where
  | file
  | dir (entries : List (String × FsNode))
deriving Repr

/-- `PHP_EXTENSION` from `src/files.rs`. -/
def PHP_EXTENSION : List String := ["php", "php7", "php8"]

/-- Rust `Path::extension` on a file name: the suffix after the last dot,
absent when there is no dot or when the only dot is leading. -/
def fileExtension (name : String) : Option String :=
  match name.splitOn "." with
  | [] => Option.none
  | [_] => Option.none
  | first :: rest =>
    if first = "" ∧ rest.length = 1 then Option.none
    else Option.some ((first :: rest).getLastD "")

/-- `has_php_extension` from `src/files.rs`. -/
def has_php_extension (name : String) : Bool :=
  match fileExtension name with
  | Option.some ext => PHP_EXTENSION.contains ext
  | Option.none => false

mutual
/-- The recursive body of `read_dir` in `src/files.rs`, applied to the
contents of one directory: subdirectories are recursed into, files with a
recognized extension are pushed.  Paths are component lists. -/
def read_dir_node (path : List String) : FsNode → List (List String)
  | FsNode.file => []
  | FsNode.dir entries => read_dir_entries path entries

/-- `read_dir`'s iteration over one directory listing. -/
def read_dir_entries (path : List String) : List (String × FsNode) → List (List String)
  | [] => []
  | (name, node) :: rest =>
    (match node with
     | FsNode.dir es => read_dir_node (path ++ [name]) (FsNode.dir es)
     | FsNode.file => if has_php_extension name then [path ++ [name]] else []) ++
      read_dir_entries path rest
end

/-- `walk_files` from `src/files.rs`.  The filesystem is modelled as what the
root path resolves to: `Option.none` when the root does not exist (or is not a
directory), in which case `fs::read_dir(base_path).unwrap()` panics and no
sequence of paths is produced — modelled as an `Option.none` result. -/
def walk_files (root : Option FsNode) (base : List String) :
    Option (List (List String)) :=
  match root with
  | Option.some (FsNode.dir entries) => Option.some (read_dir_entries base entries)
  | _ => Option.none

/-- `PACKAGIST_PER_PAGE` from `src/downloader.rs`. -/
def PACKAGIST_PER_PAGE : Nat := 15

/-- One page of the registry's popular-package listing: the listing is an
infinite sequence of names indexed from 0, and page `p` (1-based, as in the
`page={}` query) holds the names at global indices
`[(p-1)*PER_PAGE, p*PER_PAGE)`. -/
def pageItems (listing : Nat → String) (page : Nat) : List String :=
  (List.range PACKAGIST_PER_PAGE).map
    (fun i => listing ((page - 1) * PACKAGIST_PER_PAGE + i))

/-- The inner `for package in package_list.packages` loop of
`get_top_packages` in `src/downloader.rs`: push the name when
`collected >= min && collected < max`, increment `collected`, and return the
accumulated names (`Sum.inl`) as soon as `collected >= max`; otherwise hand
the updated state to the next page (`Sum.inr`). -/
def scanPage (min max : Nat) :
    List String → Nat → List String → Sum (List String) (Nat × List String)
  | [], collected, acc => Sum.inr (collected, acc)
  | name :: rest, collected, acc =>
    let acc := if min ≤ collected ∧ collected < max then acc ++ [name] else acc
    let collected := collected + 1
    if max ≤ collected then Sum.inl acc
    else scanPage min max rest collected acc

/-- The outer `loop` of `get_top_packages`, one recursive step per fetched
page.  The source loop runs until the `collected >= max` return fires inside a
page; `fuel` bounds the recursion and is chosen large enough in
`get_top_packages` that it is never exhausted before that return. -/
def get_top_packages_loop (listing : Nat → String) (min max : Nat) :
    Nat → Nat → Nat → List String → List String
  | 0, _, _, acc => acc
  | fuel + 1, page, collected, acc =>
    match scanPage min max (pageItems listing page) collected acc with
    | Sum.inl result => result
    | Sum.inr (collected', acc') =>
      get_top_packages_loop listing min max fuel (page + 1) collected' acc'

/-- `get_top_packages` from `src/downloader.rs`: start at
`page = (min / PACKAGIST_PER_PAGE) + 1` with `collected = 0` and an empty
accumulator. -/
def get_top_packages (listing : Nat → String) (min max : Nat) : List String :=
  get_top_packages_loop listing min max (max + 1) (min / PACKAGIST_PER_PAGE + 1) 0 []

/-- `VersionInfo` from `src/downloader.rs`: an optional dist URL. -/
structure VersionInfo where
  dist : Option String
deriving DecidableEq, Repr

/-- The remote registry and local disk state consumed by one acquisition run:
`metadata` is the parsed v2 metadata entry for a lowercased package name
(`Option.none` covers a failed fetch, unparseable JSON, and a name absent from
the response map); the Booleans give the idempotence checks and the success of
the download and extraction effects. -/
structure World where
  metadata : String → Option (List VersionInfo)
  zipball_exists : String → Bool
  download_ok : String → Bool
  extract_dir_exists : String → Bool
  extract_ok : String → Bool

/-- `download_and_extract_package` from `src/downloader.rs`: validate the
`vendor/project` shape, fetch metadata, require a nonempty version list, take
the last version, require a dist URL, then download (skipped when the zipball
already exists) and extract (skipped when the extraction directory already
exists); each failure aborts only this package, with the source's error text. -/
def download_and_extract_package (w : World) (package_name : String) :
    Except String Unit :=
  let package_name_lower := package_name.toLower
  let parts := package_name_lower.splitOn "/"
  if parts.length ≠ 2 then Except.error "Invalid package name format"
  else
    match w.metadata package_name_lower with
    | Option.none => Except.error "Failed to fetch or parse package metadata"
    | Option.some versions =>
      if versions.isEmpty then Except.error "No versions available for package"
      else
        match versions.getLast? with
        | Option.none => Except.error "No suitable version found"
        | Option.some version_info =>
          match version_info.dist with
          | Option.none => Except.error "No dist information available"
          | Option.some url =>
            if w.zipball_exists package_name_lower ∨ w.download_ok url then
              if w.extract_dir_exists package_name_lower ∨ w.extract_ok package_name_lower then
                Except.ok ()
              else Except.error "Failed to extract package"
            else Except.error "Failed to download package"

/-- Whether one package's acquisition succeeded. -/
def acquisition_ok (w : World) (package_name : String) : Bool :=
  match download_and_extract_package w package_name with
  | Except.ok _ => true
  | Except.error _ => false

/-- Modelled from the spec: `download_packages`, the corpus-acquisition driver
that `main` calls (`src/main.rs` lines 116-119) and that is absent from the
sources provided (`src/downloader.rs` holds only the older combined
`download_and_extract_packages`, which discards its failure tally).  Per
§4.1 of the design, it attempts every package, converts each per-package
failure into a counted, logged outcome without aborting the batch, and
returns the `(succeeded, failed)` tally. -/
def download_packages (w : World) (packages : List String) : Nat × Nat :=
  packages.foldl
    (fun tally package_name =>
      match download_and_extract_package w package_name with
      | Except.ok _ => (tally.1 + 1, tally.2)
      | Except.error _ => (tally.1, tally.2 + 1))
    (0, 0)

/-! ## Generic fold lemmas -/

/-- A left-fold over a list is invariant under permutation of the list when
the folded operation is left-commutative. -/
theorem foldl_perm_of_comm {α β : Type} {f : β → α → β}
    (comm : ∀ (b : β) (a₁ a₂ : α), f (f b a₁) a₂ = f (f b a₂) a₁)
    {l₁ l₂ : List α} (h : l₁.Perm l₂) : ∀ b : β, l₁.foldl f b = l₂.foldl f b := by
  induction h with
  | nil => intro b; rfl
  | cons x _ ih => intro b; simp only [List.foldl_cons]; exact ih _
  | swap x y l => intro b; simp only [List.foldl_cons]; rw [comm]
  | trans _ _ ih₁ ih₂ => intro b; rw [ih₁ b, ih₂ b]

/-- A left-fold commutes with a map `M` on accumulators that commutes with
each single step. -/
theorem foldl_hom_acc {α β : Type} {f : β → α → β} {M : β → β}
    (h : ∀ (g : β) (m : α), f (M g) m = M (f g m)) :
    ∀ (l : List α) (g : β), l.foldl f (M g) = M (l.foldl f g) := by
  intro l
  induction l with
  | nil => intro g; rfl
  | cons m rest ih => intro g; simp only [List.foldl_cons, h]; exact ih _

/-! ## C3: impact thresholds -/

/-- C3: the impact tier is a pure function of the count with exactly the
thresholds 0 / 1–25 / 26–100 / 101–500 / above 500. -/
theorem c3_impact_thresholds (n : Nat) :
    (n = 0 → ImpactLevel.calculate n = ImpactLevel.none) ∧
    (1 ≤ n → n ≤ 25 → ImpactLevel.calculate n = ImpactLevel.low) ∧
    (26 ≤ n → n ≤ 100 → ImpactLevel.calculate n = ImpactLevel.medium) ∧
    (101 ≤ n → n ≤ 500 → ImpactLevel.calculate n = ImpactLevel.high) ∧
    (500 < n → ImpactLevel.calculate n = ImpactLevel.critical) := by
  unfold ImpactLevel.calculate
  refine ⟨?_, ?_, ?_, ?_, ?_⟩ <;> intros <;> split_ifs <;> first | rfl | omega

/-- C3 witness: the tier of 26 is Medium. -/
theorem c3_witness : ImpactLevel.calculate 26 = ImpactLevel.medium :=
  (c3_impact_thresholds 26).2.2.1 (by decide) (by decide)

/-! ## C5: hard impact dominates soft impact -/

/-- `ImpactLevel.calculate` is monotone in the count. -/
theorem calculate_mono {n m : Nat} (h : n ≤ m) :
    ImpactLevel.calculate n ≤ ImpactLevel.calculate m := by
  show (ImpactLevel.calculate n).toNat ≤ (ImpactLevel.calculate m).toNat
  unfold ImpactLevel.calculate
  split_ifs <;> simp [ImpactLevel.toNat] <;> omega

/-- C5: for every keyword result the hard impact (tier of soft + hard count)
is at least the soft impact (tier of the soft count alone), and the tier
function is monotone in the count. -/
theorem c5_hard_impact_ge_soft_impact :
    (∀ r : KeywordResult, r.soft_impact ≤ r.hard_impact) ∧
    (∀ n m : Nat, n ≤ m → ImpactLevel.calculate n ≤ ImpactLevel.calculate m) := by
  constructor
  · intro r
    exact calculate_mono (Nat.le_add_right r.soft_count r.hard_count)
  · intro n m h
    exact calculate_mono h

/-- C5 witness: a concrete keyword result and a concrete pair of counts. -/
theorem c5_witness :
    (KeywordResult.mk 3 7 ∅).soft_impact ≤ (KeywordResult.mk 3 7 ∅).hard_impact ∧
    ImpactLevel.calculate 3 ≤ ImpactLevel.calculate 10 :=
  ⟨c5_hard_impact_ge_soft_impact.1 (KeywordResult.mk 3 7 ∅),
   c5_hard_impact_ge_soft_impact.2 3 10 (by decide)⟩

/-! ## C6: case-insensitive keyword matching -/

/-- C6: keyword matching is case-insensitive in every matching category —
a declared function name, a called identifier's resolved last segment, and a
bare local identifier that equal "let" up to ASCII case each emit a match for
keyword "let". -/
theorem c6_case_insensitive :
    (∀ (v : Vendor) (name : String), eq_ignore_ascii_case name "let" = true →
      walk_in_function ["let"] v name =
        [{ keyword := "let", vendor := v, is_hard := false }]) ∧
    (∀ (v : Vendor) (resolved : String),
      eq_ignore_ascii_case (lastSegment resolved) "let" = true →
      walk_in_function_call ["let"] v (CalleeExpr.identifier resolved) =
        [{ keyword := "let", vendor := v, is_hard := false }]) ∧
    (∀ (v : Vendor) (value : String), eq_ignore_ascii_case value "let" = true →
      walk_in_local_identifier true ["let"] v value =
        [{ keyword := "let", vendor := v, is_hard := true }]) := by
  refine ⟨?_, ?_, ?_⟩ <;> intro v s h <;>
    simp [walk_in_function, walk_in_function_call, walk_in_local_identifier,
      List.find?, h]

/-- C6 witness: `FUNCTION Let()`, a call resolved to `Foo\LET`, and a local
identifier `lEt` all match keyword "let". -/
theorem c6_witness :
    walk_in_function ["let"] Vendor.other "Let" =
      [{ keyword := "let", vendor := Vendor.other, is_hard := false }] ∧
    walk_in_function_call ["let"] Vendor.other (CalleeExpr.identifier "Foo\x5cLET") =
      [{ keyword := "let", vendor := Vendor.other, is_hard := false }] ∧
    walk_in_local_identifier true ["let"] Vendor.other "lEt" =
      [{ keyword := "let", vendor := Vendor.other, is_hard := true }] :=
  ⟨c6_case_insensitive.1 Vendor.other "Let" (by decide),
   c6_case_insensitive.2.1 Vendor.other "Foo\x5cLET" (by decide),
   c6_case_insensitive.2.2 Vendor.other "lEt" (by decide)⟩

/-! ## Fold lemmas for untouched keys -/

/-- Folding keyword matches never touches a key no match carries. -/
theorem foldl_step_keyword_notin (k : String) :
    ∀ (kms : List KeywordMatch) (map : String → Option KeywordResult),
      (∀ m ∈ kms, m.keyword ≠ k) → kms.foldl step_keyword map k = map k := by
  intro kms
  induction kms with
  | nil => intro map _; rfl
  | cons m rest ih =>
    intro map h
    simp only [List.foldl_cons]
    rw [ih _ (fun x hx => h x (List.mem_cons_of_mem m hx))]
    simp only [step_keyword]
    rw [if_neg (Ne.symm (h m (List.mem_cons_self m rest)))]

/-- Folding label matches never touches a key no match carries. -/
theorem foldl_step_label_notin (t : String) :
    ∀ (lms : List LabelMatch) (map : String → Option LabelResult),
      (∀ m ∈ lms, m.label ≠ t) → lms.foldl step_label map t = map t := by
  intro lms
  induction lms with
  | nil => intro map _; rfl
  | cons m rest ih =>
    intro map h
    simp only [List.foldl_cons]
    rw [ih _ (fun x hx => h x (List.mem_cons_of_mem m hx))]
    simp only [step_label]
    rw [if_neg (Ne.symm (h m (List.mem_cons_self m rest)))]

/-- `ensure_all_keywords` leaves a key that is already present unchanged. -/
theorem foldl_ensure_preserve :
    ∀ (ks : List String) (map : String → Option KeywordResult) (x : String),
      (map x).isSome → ks.foldl ensure_keyword map x = map x := by
  intro ks
  induction ks with
  | nil => intro map x _; rfl
  | cons k rest ih =>
    intro map x hx
    simp only [List.foldl_cons]
    have hstep : ensure_keyword map k x = map x := by
      unfold ensure_keyword
      by_cases e : x = k
      · subst e
        cases hm : map x with
        | none => rw [hm] at hx; simp at hx
        | some r => simp [hm]
      · rw [if_neg e]
    rw [ih (ensure_keyword map k) x (by rw [hstep]; exact hx), hstep]

/-- After `ensure_all_keywords`, every requested keyword maps to its previous
record, or to a fresh zero record when it was absent. -/
theorem foldl_ensure_mem :
    ∀ (ks : List String) (map : String → Option KeywordResult) (x : String),
      x ∈ ks →
      ks.foldl ensure_keyword map x = Option.some ((map x).getD KeywordResult.new) := by
  intro ks
  induction ks with
  | nil => intro map x hx; simp at hx
  | cons k rest ih =>
    intro map x hx
    simp only [List.foldl_cons]
    by_cases e : x = k
    · subst e
      have h1 : ensure_keyword map x x = Option.some ((map x).getD KeywordResult.new) := by
        unfold ensure_keyword
        rw [if_pos rfl]
      rw [foldl_ensure_preserve rest (ensure_keyword map x) x (by rw [h1]; rfl), h1]
    · have hx' : x ∈ rest := by
        cases List.mem_cons.mp hx with
        | inl h => exact absurd h e
        | inr h => exact h
      have h2 : ensure_keyword map k x = map x := by
        unfold ensure_keyword
        rw [if_neg e]
      rw [ih (ensure_keyword map k) x hx', h2]

/-! ## C4: requested keywords always present -/

/-- C4: after aggregation every requested keyword is a key of the report's
keyword map, and it maps to the zero record when no match for it was folded. -/
theorem c4_requested_keywords_present (n : Nat) (keywords : List String)
    (kms : List KeywordMatch) (lms : List LabelMatch) (k : String)
    (hk : k ∈ keywords) :
    ((analyze_aggregate n keywords kms lms).keyword_results k).isSome = true ∧
    ((∀ m ∈ kms, m.keyword ≠ k) →
      (analyze_aggregate n keywords kms lms).keyword_results k =
        Option.some KeywordResult.new) := by
  have hmap :
      (analyze_aggregate n keywords kms lms).keyword_results k =
        Option.some (((kms.foldl step_keyword (fun _ => Option.none)) k).getD
          KeywordResult.new) := by
    simp only [analyze_aggregate, AnalysisReport.ensure_all_keywords,
      AnalysisReport.add_label_matches, AnalysisReport.add_keyword_matches,
      AnalysisReport.new]
    exact foldl_ensure_mem keywords _ k hk
  constructor
  · rw [hmap]; rfl
  · intro hnone
    rw [hmap, foldl_step_keyword_notin k kms _ hnone]
    rfl

/-- C4 witness: requesting keyword "zzzneverused" with no matches yields a
zero-valued record for it. -/
theorem c4_witness :
    ((analyze_aggregate 0 ["zzzneverused"] [] []).keyword_results
        "zzzneverused").isSome = true ∧
    (analyze_aggregate 0 ["zzzneverused"] [] []).keyword_results "zzzneverused" =
      Option.some KeywordResult.new :=
  ⟨(c4_requested_keywords_present 0 ["zzzneverused"] [] [] "zzzneverused"
      (by decide)).1,
   (c4_requested_keywords_present 0 ["zzzneverused"] [] [] "zzzneverused"
      (by decide)).2 (by intro m hm; simp at hm)⟩

/-! ## C9: label matches are keyed by source spelling -/

/-- C9: a label match carries the label's spelling as written in the source,
and two case-variant occurrences of one requested term accumulate under two
distinct keys of the label map, one count each. -/
theorem c9_label_source_spelling :
    (∀ (labels : List String) (v : Vendor) (name : String),
      ∀ m ∈ walk_in_label labels v name, m.label = name) ∧
    (∀ (t : String) (v : Vendor) (n₁ n₂ : String),
      eq_ignore_ascii_case n₁ t = true → eq_ignore_ascii_case n₂ t = true →
      n₁ ≠ n₂ →
      build_label_map (walk_in_label [t] v n₁ ++ walk_in_label [t] v n₂) n₁ =
        Option.some (LabelResult.add_match LabelResult.new
          { label := n₁, vendor := v }) ∧
      build_label_map (walk_in_label [t] v n₁ ++ walk_in_label [t] v n₂) n₂ =
        Option.some (LabelResult.add_match LabelResult.new
          { label := n₂, vendor := v })) := by
  constructor
  · intro labels v name m hm
    simp only [walk_in_label, List.mem_filterMap] at hm
    obtain ⟨a, _, ha⟩ := hm
    by_cases h : eq_ignore_ascii_case name a
    · rw [if_pos h] at ha
      cases ha
      rfl
    · rw [if_neg h] at ha
      cases ha
  · intro t v n₁ n₂ h1 h2 hne
    have w1 : walk_in_label [t] v n₁ = [{ label := n₁, vendor := v }] := by
      simp [walk_in_label, List.filterMap, h1]
    have w2 : walk_in_label [t] v n₂ = [{ label := n₂, vendor := v }] := by
      simp [walk_in_label, List.filterMap, h2]
    rw [w1, w2]
    constructor
    · simp [build_label_map, step_label, empty_label_map, hne, Ne.symm hne]
    · simp [build_label_map, step_label, empty_label_map, hne, Ne.symm hne]

/-- C9 witness: goto labels `Using` and `using`, both matching the requested
term "USING", land under the two distinct keys "Using" and "using". -/
theorem c9_witness :
    ({ label := "Using", vendor := Vendor.other } : LabelMatch).label = "Using" ∧
    build_label_map
        (walk_in_label ["USING"] Vendor.other "Using" ++
          walk_in_label ["USING"] Vendor.other "using") "Using" =
      Option.some (LabelResult.add_match LabelResult.new
        { label := "Using", vendor := Vendor.other }) ∧
    build_label_map
        (walk_in_label ["USING"] Vendor.other "Using" ++
          walk_in_label ["USING"] Vendor.other "using") "using" =
      Option.some (LabelResult.add_match LabelResult.new
        { label := "using", vendor := Vendor.other }) :=
  ⟨c9_label_source_spelling.1 ["USING"] Vendor.other "Using"
      { label := "Using", vendor := Vendor.other } (by decide),
   (c9_label_source_spelling.2 "USING" Vendor.other "Using" "using"
      (by decide) (by decide) (by decide)).1,
   (c9_label_source_spelling.2 "USING" Vendor.other "Using" "using"
      (by decide) (by decide) (by decide)).2⟩

/-! ## C10: unmatched labels are absent -/

/-- C10: a label term no folded match carries never appears as a key of the
report's label map — the zero-record guarantee for keywords has no label
counterpart. -/
theorem c10_unmatched_label_absent (n : Nat) (keywords : List String)
    (kms : List KeywordMatch) (lms : List LabelMatch) (t : String)
    (h : ∀ m ∈ lms, m.label ≠ t) :
    (analyze_aggregate n keywords kms lms).label_results t = Option.none := by
  simp only [analyze_aggregate, AnalysisReport.ensure_all_keywords,
    AnalysisReport.add_label_matches, AnalysisReport.add_keyword_matches,
    AnalysisReport.new]
  exact foldl_step_label_notin t lms _ h

/-- C10 witness: requesting label "using" over matches that only ever carry
other spellings leaves no entry keyed "using". -/
theorem c10_witness :
    (analyze_aggregate 1 ["let"] []
        [{ label := "USING", vendor := Vendor.other }]).label_results "using" =
      Option.none :=
  c10_unmatched_label_absent 1 ["let"] []
    [{ label := "USING", vendor := Vendor.other }] "using" (by decide)

/-! ## C7: discovery under a missing root -/

/-- C7 counterexample: for a root that does not exist, `walk_files` does not
return an empty sequence of paths — `fs::read_dir(base_path).unwrap()` panics
and no sequence at all is produced. -/
theorem c7_counterexample :
    walk_files Option.none ["downloads", "sources"] ≠
      Option.some ([] : List (List String)) := by
  simp [walk_files]

/-- C7 amended: discovering files under a root directory that does not exist
is an error, never a successful empty result: `walk_files` produces no path
sequence for any missing root. -/
theorem c7_missing_root_is_error (base : List String) :
    walk_files Option.none base = Option.none := rfl

/-! ## C8: acquisition tallies -/

/-- C8: corpus acquisition returns the pair (succeeded, failed); every
attempted package is counted exactly once in exactly one tally, whatever its
individual outcome, and no failure stops the remaining packages from being
processed and counted. -/
theorem c8_acquisition_tally (w : World) (packages : List String) :
    (download_packages w packages).1 = packages.countP (acquisition_ok w) ∧
    (download_packages w packages).2 =
      packages.countP (fun p => !acquisition_ok w p) ∧
    (download_packages w packages).1 + (download_packages w packages).2 =
      packages.length := by
  have go : ∀ (ps : List String) (s f : Nat),
      ps.foldl
          (fun tally package_name =>
            match download_and_extract_package w package_name with
            | Except.ok _ => (tally.1 + 1, tally.2)
            | Except.error _ => (tally.1, tally.2 + 1))
          (s, f) =
        (s + ps.countP (acquisition_ok w),
         f + ps.countP (fun p => !acquisition_ok w p)) := by
    intro ps
    induction ps with
    | nil => intro s f; simp
    | cons p rest ih =>
      intro s f
      simp only [List.foldl_cons, List.countP_cons]
      cases hp : download_and_extract_package w p with
      | ok u =>
        have hb : acquisition_ok w p = true := by
          unfold acquisition_ok
          rw [hp]
        rw [ih]
        simp [hb]
        omega
      | error e =>
        have hb : acquisition_ok w p = false := by
          unfold acquisition_ok
          rw [hp]
        rw [ih]
        simp [hb]
        omega
  have hd : download_packages w packages =
      (packages.countP (acquisition_ok w),
       packages.countP (fun p => !acquisition_ok w p)) := by
    unfold download_packages
    rw [go packages 0 0]
    simp
  refine ⟨by rw [hd], by rw [hd], ?_⟩
  rw [hd]
  have hfun : (fun p => !acquisition_ok w p) =
      (fun a => decide (acquisition_ok w a = false)) := by
    funext a
    cases acquisition_ok w a <;> rfl
  have hlen :=
    List.length_eq_countP_add_countP (p := acquisition_ok w) (l := packages)
  simp only [Bool.not_eq_true] at hlen
  rw [hfun]
  omega

/-! ## C2: ranking fetch slice -/

/-- C2: the ranking fetch does not return the slice `[rangeMin, rangeMax)` of
the listing.  With page size 15 and the range `[15, 16)`, the code starts at
page 2 but restarts its `collected` counter at 0 on that page, so it returns
the name at global position 30 instead of the name at position 15. -/
theorem c2_ranking_fetch_off_by_page_offset :
    get_top_packages
        (fun n => if n = 15 then "fifteen" else if n = 30 then "thirty" else "padding")
        15 16 = ["thirty"] ∧
    (["thirty"] : List String) ≠ ["fifteen"] := by
  constructor
  · rfl
  · decide

/-! ## C1: order-independence of aggregation -/

/-- `KeywordResult.add_match` is commutative on one record. -/
theorem keyword_add_match_comm (r : KeywordResult) (m₁ m₂ : KeywordMatch) :
    (r.add_match m₁).add_match m₂ = (r.add_match m₂).add_match m₁ := by
  unfold KeywordResult.add_match
  by_cases h1 : m₁.is_hard <;> by_cases h2 : m₂.is_hard <;>
    by_cases w1 : m₁.vendor.is_well_known <;>
      by_cases w2 : m₂.vendor.is_well_known <;>
        simp [h1, h2, w1, w2, Finset.Insert.comm]

/-- `LabelResult.add_match` is commutative on one record. -/
theorem label_add_match_comm (r : LabelResult) (m₁ m₂ : LabelMatch) :
    (r.add_match m₁).add_match m₂ = (r.add_match m₂).add_match m₁ := by
  unfold LabelResult.add_match
  by_cases w1 : m₁.vendor.is_well_known <;>
    by_cases w2 : m₂.vendor.is_well_known <;>
      simp [w1, w2, Finset.Insert.comm]

/-- Two keyword-fold steps commute. -/
theorem step_keyword_comm (map : String → Option KeywordResult)
    (m₁ m₂ : KeywordMatch) :
    step_keyword (step_keyword map m₁) m₂ = step_keyword (step_keyword map m₂) m₁ := by
  funext k
  simp only [step_keyword]
  by_cases e : m₁.keyword = m₂.keyword
  · by_cases ek : k = m₂.keyword
    · simp [ek, e, keyword_add_match_comm]
    · simp [ek, e]
  · by_cases ek1 : k = m₁.keyword <;> by_cases ek2 : k = m₂.keyword
    · exact absurd (ek1.symm.trans ek2) e
    · simp [ek1, ek2, e, Ne.symm e]
    · simp [ek1, ek2, e, Ne.symm e]
    · simp [ek1, ek2]

/-- Two label-fold steps commute. -/
theorem step_label_comm (map : String → Option LabelResult) (m₁ m₂ : LabelMatch) :
    step_label (step_label map m₁) m₂ = step_label (step_label map m₂) m₁ := by
  funext k
  simp only [step_label]
  by_cases e : m₁.label = m₂.label
  · by_cases ek : k = m₂.label
    · simp [ek, e, label_add_match_comm]
    · simp [ek, e]
  · by_cases ek1 : k = m₁.label <;> by_cases ek2 : k = m₂.label
    · exact absurd (ek1.symm.trans ek2) e
    · simp [ek1, ek2, e, Ne.symm e]
    · simp [ek1, ek2, e, Ne.symm e]
    · simp [ek1, ek2]

/-- Adding a match to a merged keyword record adds it to the right component. -/
theorem keyword_add_match_merge (a b : KeywordResult) (m : KeywordMatch) :
    (a.merge b).add_match m = a.merge (b.add_match m) := by
  unfold KeywordResult.merge KeywordResult.add_match
  by_cases h : m.is_hard <;> by_cases w : m.vendor.is_well_known <;>
    simp [h, w, Nat.add_assoc, Finset.union_insert]

/-- Merging a fresh record with one match into `a` is adding the match to `a`. -/
theorem keyword_merge_new_add_match (a : KeywordResult) (m : KeywordMatch) :
    a.merge (KeywordResult.new.add_match m) = a.add_match m := by
  unfold KeywordResult.merge KeywordResult.add_match KeywordResult.new
  by_cases h : m.is_hard <;> by_cases w : m.vendor.is_well_known <;>
    simp [h, w, Finset.union_insert, Finset.insert_eq, Finset.union_comm]

/-- Adding a match to a merged label record adds it to the right component. -/
theorem label_add_match_merge (a b : LabelResult) (m : LabelMatch) :
    (a.merge b).add_match m = a.merge (b.add_match m) := by
  unfold LabelResult.merge LabelResult.add_match
  by_cases w : m.vendor.is_well_known <;>
    simp [w, Nat.add_assoc, Finset.union_insert]

/-- Merging a fresh label record with one match into `a` adds the match to `a`. -/
theorem label_merge_new_add_match (a : LabelResult) (m : LabelMatch) :
    a.merge (LabelResult.new.add_match m) = a.add_match m := by
  unfold LabelResult.merge LabelResult.add_match LabelResult.new
  by_cases w : m.vendor.is_well_known <;>
    simp [w, Finset.union_insert, Finset.insert_eq, Finset.union_comm]

/-- The empty map is a left identity for keyword-map merge. -/
theorem merge_keyword_maps_empty_left (g : String → Option KeywordResult) :
    merge_keyword_maps empty_keyword_map g = g := by
  funext k
  unfold merge_keyword_maps empty_keyword_map
  cases g k <;> rfl

/-- The empty map is a right identity for keyword-map merge. -/
theorem merge_keyword_maps_empty_right (f : String → Option KeywordResult) :
    merge_keyword_maps f empty_keyword_map = f := by
  funext k
  unfold merge_keyword_maps empty_keyword_map
  cases f k <;> rfl

/-- The empty map is a left identity for label-map merge. -/
theorem merge_label_maps_empty_left (g : String → Option LabelResult) :
    merge_label_maps empty_label_map g = g := by
  funext k
  unfold merge_label_maps empty_label_map
  cases g k <;> rfl

/-- The empty map is a right identity for label-map merge. -/
theorem merge_label_maps_empty_right (f : String → Option LabelResult) :
    merge_label_maps f empty_label_map = f := by
  funext k
  unfold merge_label_maps empty_label_map
  cases f k <;> rfl

/-- A keyword-fold step on a merged map lands in the right component. -/
theorem step_keyword_merge (f g : String → Option KeywordResult) (m : KeywordMatch) :
    step_keyword (merge_keyword_maps f g) m =
      merge_keyword_maps f (step_keyword g m) := by
  funext k
  simp only [step_keyword, merge_keyword_maps]
  by_cases e : k = m.keyword
  · subst e
    cases hf : f m.keyword <;> cases hg : g m.keyword <;>
      simp [hf, hg, keyword_add_match_merge, keyword_merge_new_add_match]
  · simp [e]

/-- A label-fold step on a merged map lands in the right component. -/
theorem step_label_merge (f g : String → Option LabelResult) (m : LabelMatch) :
    step_label (merge_label_maps f g) m = merge_label_maps f (step_label g m) := by
  funext k
  simp only [step_label, merge_label_maps]
  by_cases e : k = m.label
  · subst e
    cases hf : f m.label <;> cases hg : g m.label <;>
      simp [hf, hg, label_add_match_merge, label_merge_new_add_match]
  · simp [e]

/-- Folding the concatenation of two keyword-match lists merges the folds. -/
theorem build_keyword_map_append (l₁ l₂ : List KeywordMatch) :
    build_keyword_map (l₁ ++ l₂) =
      merge_keyword_maps (build_keyword_map l₁) (build_keyword_map l₂) := by
  unfold build_keyword_map
  have h := foldl_hom_acc (fun g m => step_keyword_merge (l₁.foldl step_keyword empty_keyword_map) g m)
    l₂ empty_keyword_map
  rw [merge_keyword_maps_empty_right] at h
  rw [List.foldl_append, h]

/-- Folding the concatenation of two label-match lists merges the folds. -/
theorem build_label_map_append (l₁ l₂ : List LabelMatch) :
    build_label_map (l₁ ++ l₂) =
      merge_label_maps (build_label_map l₁) (build_label_map l₂) := by
  unfold build_label_map
  have h := foldl_hom_acc (fun g m => step_label_merge (l₁.foldl step_label empty_label_map) g m)
    l₂ empty_label_map
  rw [merge_label_maps_empty_right] at h
  rw [List.foldl_append, h]

/-- Keyword-map merge is associative. -/
theorem merge_keyword_maps_assoc (f g h : String → Option KeywordResult) :
    merge_keyword_maps (merge_keyword_maps f g) h =
      merge_keyword_maps f (merge_keyword_maps g h) := by
  funext k
  simp only [merge_keyword_maps]
  cases f k <;> cases g k <;> cases h k <;>
    simp [KeywordResult.merge, Nat.add_assoc, Finset.union_assoc]

/-- Label-map merge is associative. -/
theorem merge_label_maps_assoc (f g h : String → Option LabelResult) :
    merge_label_maps (merge_label_maps f g) h =
      merge_label_maps f (merge_label_maps g h) := by
  funext k
  simp only [merge_label_maps]
  cases f k <;> cases g k <;> cases h k <;>
    simp [LabelResult.merge, Nat.add_assoc, Finset.union_assoc]

/-- Folding the parts of a keyword-match partition and merging equals merging
into any accumulator the fold of the concatenation. -/
theorem build_keyword_map_parts :
    ∀ (parts : List (List KeywordMatch)) (f : String → Option KeywordResult),
      parts.foldl (fun acc p => merge_keyword_maps acc (build_keyword_map p)) f =
        merge_keyword_maps f (build_keyword_map parts.flatten) := by
  intro parts
  induction parts with
  | nil =>
    intro f
    simp only [List.foldl_nil, List.flatten_nil]
    rw [show build_keyword_map [] = empty_keyword_map from rfl,
      merge_keyword_maps_empty_right]
  | cons p rest ih =>
    intro f
    simp only [List.foldl_cons, List.flatten_cons]
    rw [ih, build_keyword_map_append, ← merge_keyword_maps_assoc]

/-- Label-map analogue of `build_keyword_map_parts`. -/
theorem build_label_map_parts :
    ∀ (parts : List (List LabelMatch)) (f : String → Option LabelResult),
      parts.foldl (fun acc p => merge_label_maps acc (build_label_map p)) f =
        merge_label_maps f (build_label_map parts.flatten) := by
  intro parts
  induction parts with
  | nil =>
    intro f
    simp only [List.foldl_nil, List.flatten_nil]
    rw [show build_label_map [] = empty_label_map from rfl,
      merge_label_maps_empty_right]
  | cons p rest ih =>
    intro f
    simp only [List.foldl_cons, List.flatten_cons]
    rw [ih, build_label_map_append, ← merge_label_maps_assoc]

/-- C1: aggregation is order-independent — folding any permutation of the
match lists into a report gives the same report, and folding any partition of
the matches part by part and merging gives the fold of the whole. -/
theorem c1_aggregation_order_independent :
    (∀ (r : AnalysisReport) (kl₁ kl₂ : List KeywordMatch)
        (ll₁ ll₂ : List LabelMatch),
      kl₁.Perm kl₂ → ll₁.Perm ll₂ →
      (r.add_keyword_matches kl₁).add_label_matches ll₁ =
        (r.add_keyword_matches kl₂).add_label_matches ll₂) ∧
    (∀ l₁ l₂ : List KeywordMatch,
      build_keyword_map (l₁ ++ l₂) =
        merge_keyword_maps (build_keyword_map l₁) (build_keyword_map l₂)) ∧
    (∀ l₁ l₂ : List LabelMatch,
      build_label_map (l₁ ++ l₂) =
        merge_label_maps (build_label_map l₁) (build_label_map l₂)) ∧
    (∀ parts : List (List KeywordMatch),
      build_keyword_map parts.flatten =
        parts.foldl (fun acc p => merge_keyword_maps acc (build_keyword_map p))
          empty_keyword_map) ∧
    (∀ parts : List (List LabelMatch),
      build_label_map parts.flatten =
        parts.foldl (fun acc p => merge_label_maps acc (build_label_map p))
          empty_label_map) := by
  refine ⟨?_, build_keyword_map_append, build_label_map_append, ?_, ?_⟩
  · intro r kl₁ kl₂ ll₁ ll₂ hk hl
    have hkr : kl₁.foldl step_keyword r.keyword_results =
        kl₂.foldl step_keyword r.keyword_results :=
      foldl_perm_of_comm step_keyword_comm hk r.keyword_results
    have hlr : ll₁.foldl step_label r.label_results =
        ll₂.foldl step_label r.label_results :=
      foldl_perm_of_comm step_label_comm hl r.label_results
    simp [AnalysisReport.add_keyword_matches, AnalysisReport.add_label_matches,
      hkr, hlr]
  · intro parts
    rw [build_keyword_map_parts parts empty_keyword_map,
      merge_keyword_maps_empty_left]
  · intro parts
    rw [build_label_map_parts parts empty_label_map, merge_label_maps_empty_left]

/-- C1 witness: a concrete pair of permuted match lists folded into a fresh
report in both orders. -/
theorem c1_witness :
    ([{ keyword := "let", vendor := Vendor.symfony, is_hard := true },
      { keyword := "let", vendor := Vendor.other, is_hard := false }] :
        List KeywordMatch).Perm
      [{ keyword := "let", vendor := Vendor.other, is_hard := false },
       { keyword := "let", vendor := Vendor.symfony, is_hard := true }] ∧
    ([{ label := "using", vendor := Vendor.twig }] : List LabelMatch).Perm
      [{ label := "using", vendor := Vendor.twig }] ∧
    ((AnalysisReport.new 2).add_keyword_matches
          [{ keyword := "let", vendor := Vendor.symfony, is_hard := true },
           { keyword := "let", vendor := Vendor.other, is_hard := false }]).add_label_matches
        [{ label := "using", vendor := Vendor.twig }] =
      ((AnalysisReport.new 2).add_keyword_matches
          [{ keyword := "let", vendor := Vendor.other, is_hard := false },
           { keyword := "let", vendor := Vendor.symfony, is_hard := true }]).add_label_matches
        [{ label := "using", vendor := Vendor.twig }] :=
  ⟨by decide, by decide,
   c1_aggregation_order_independent.1 (AnalysisReport.new 2) _ _ _ _
     (by decide) (by decide)⟩
